import Mathlib

/-!
Formal model of the clashroom voice-dialogue server (src/server.py).

Bytes are modelled as lists of naturals.  The external collaborators
(webrtcvad, faster-whisper, the LLM, piper TTS) are oracle parameters of the
model; each collaborator call returns an `Except` value, where `.error e`
models a raised exception with message `e`.

The asyncio event loop of `websocket_handler` is modelled as a small-step
machine: the receive loop and the pipeline worker task (`_worker`) advance
between their `await` suspension points, one atomic block per step, and a
schedule chooses which coroutine runs next.  Outbound `send_json` calls are
modelled as taking effect atomically in the step of the coroutine that
executes them.  Note that `transcribe_audio` and `synthesize_speech` contain
no internal `await`, so awaiting them is not itself a suspension point; the
suspension points of `_worker` are the sends and the fragment requests.
-/

namespace Clashroom

/-- Decoded JSON values, the result of a successful `json.loads`. -/
inductive Json where
  | obj (fields : List (String × Json))
  | arr (elems : List Json)
  | str (s : String)
  | num (n : Int)
  | bool (b : Bool)
  | null

/-- Python truthiness of a decoded JSON value. -/
def jsonTruthy : Json → Bool
  | .null => false
  | .bool b => b
  | .num n => n != 0
  | .str s => s != ""
  | .arr l => !l.isEmpty
  | .obj l => !l.isEmpty

/-- Models the expression `(data.get("text") or "").strip()` up to the strip:
`data.get("text") or ""` maps a missing or falsy value to the empty string and
a truthy value to itself; calling `.strip()` then raises `AttributeError`
(modelled as `.error`) whenever that value is not a string. -/
def promptTextValue : Option Json → Except String String
  | none => .ok ""
  | some v =>
    if jsonTruthy v then
      match v with
      | .str s => .ok s
      | _ => .error "AttributeError"
    else .ok ""

/-- Python `str.strip()`: drop leading and trailing whitespace.  Defined
structurally over the underlying character list (rather than through
`String.trim`, whose well-founded recursion does not reduce), so concrete
sessions evaluate inside proofs. -/
def pyStrip (s : String) : String :=
  ⟨((s.data.dropWhile Char.isWhitespace).reverse.dropWhile
      Char.isWhitespace).reverse⟩

/-! ### AudioProcessor (server.py lines 101-128) -/

def sample_rate : Nat := 16000

def frame_duration_ms : Nat := 30

/-- Computed as `int(self.sample_rate * self.frame_duration_ms / 1000)`. -/
def frame_size : Nat := sample_rate * frame_duration_ms / 1000

/-- The mutable state of an `AudioProcessor`: its byte buffer. -/
structure AudioProcessor where
  buffer : List Nat
deriving DecidableEq

/-- Method `AudioProcessor.add_audio` (lines 109-128), with the `webrtcvad` oracle
passed explicitly.  Returns the optional finished utterance and the processor
state after the call. -/
def add_audio (vad : List Nat → Except String Bool) (p : AudioProcessor)
    (audio_bytes : List Nat) : Option (List Nat) × AudioProcessor :=
  let buffer := p.buffer ++ audio_bytes
  if buffer.length < frame_size * 2 then
    (none, ⟨buffer⟩)
  else
    let frame := buffer.take (frame_size * 2)
    match vad frame with
    | .ok is_speech =>
      if is_speech = false ∧ sample_rate * 2 < buffer.length then
        (some buffer, ⟨[]⟩)
      else
        (none, ⟨buffer⟩)
    | .error _ => (none, ⟨buffer⟩)

/-! ### Pipeline stage functions (server.py lines 131-226) -/

/-- Function `transcribe_audio` (lines 131-153).  The whisper collaborator is modelled
as producing the joined segment text (or raising); the function strips it and
maps an empty result or an exception to `none`. -/
def transcribe_audio (result : Except String String) : Option String :=
  match result with
  | .error _ => none
  | .ok raw =>
    let text := pyStrip raw
    if text = "" then none else some text

/-- Function `generate_llm_response` (lines 156-195): the sequence of fragments the
async generator yields, each tagged with whether its yield is preceded by
the cooperative interrupt check.  The LLM collaborator is modelled as
producing the streamed fragment list (or raising).  Fragments streamed
inside the `for text in streamer` loop are guarded by
`if interrupt_event.is_set(): break` (lines 187-189), so they carry tag
`true`; an exception is caught and surfaced as a single yielded fragment
`"Error: ..."` by the `except` branch (line 195), whose yield carries no
interrupt check, so it is tagged `false`. -/
def generate_llm_response (result : Except String (List String)) :
    List (Bool × String) :=
  match result with
  | .ok fragments => fragments.map (fun s => (true, s))
  | .error e => [(false, "Error: " ++ e)]

/-- Little-endian 32-bit encoding of a length field of the WAV header. -/
def le32 (n : Nat) : List Nat :=
  [n % 256, n / 256 % 256, n / 65536 % 256, n / 16777216 % 256]

/-- Little-endian 16-bit encoding of a WAV header field. -/
def le16 (n : Nat) : List Nat :=
  [n % 256, n / 256 % 256]

/-- The WAV container written by the `wave` module in `synthesize_speech`:
RIFF/WAVE header for mono 16-bit 22050 Hz PCM followed by the raw data. -/
def wavEncode (data : List Nat) : List Nat :=
  [82, 73, 70, 70] ++ le32 (36 + data.length) ++ [87, 65, 86, 69] ++
  [102, 109, 116, 32] ++ le32 16 ++ le16 1 ++ le16 1 ++ le32 22050 ++
  le32 44100 ++ le16 2 ++ le16 16 ++ [100, 97, 116, 97] ++
  le32 data.length ++ data

/-- Function `synthesize_speech` (lines 198-226).  The piper collaborator is modelled
as producing the streamed raw audio chunks (or raising); an empty chunk list
or an exception yields `none`, otherwise the joined bytes are wrapped in the
WAV container. -/
def synthesize_speech (result : Except String (List (List Nat))) :
    Option (List Nat) :=
  match result with
  | .error _ => none
  | .ok audio_chunks =>
    if audio_chunks.isEmpty then none
    else some (wavEncode audio_chunks.flatten)

/-! ### The per-connection session machine (server.py lines 229-339) -/

/-- Outbound messages.  `llm`, `llm_final` and `tts_audio` additionally carry
the identifier of the worker task that emitted them; this is a ghost
annotation used to state attribution properties, not a wire field. -/
inductive Msg where
  | ready
  | stt (text : String) (final : Bool)
  | llm_start
  | llm (task : Nat) (text : String)
  | llm_final (task : Nat) (text : String)
  | tts_audio (task : Nat) (audio : List Nat) (format : String)
  | interrupt_ack
  | pong (id : Option Json)
  | error (message : String)

/-- Inbound websocket payloads: binary audio frames, or a text payload given
as the result of `json.loads` (`none` models both an empty text field and a
`JSONDecodeError`, which the loop skips identically). -/
inductive InEvent where
  | audio (chunk : List Nat)
  | text (payload : Option Json)

/-- Program counter of the `_worker` coroutine between suspension points.
`gen acc rest` is suspended at a fragment request with `acc` the fragments
accumulated in `full_text` and `rest` the fragments the generator has yet to
yield, each tagged with whether its yield is preceded by the interrupt
check (see `generate_llm_response`); `synth text` is suspended just after
sending `llm_final`, before the synthesis call; `done` is the terminal
state (the `finally` block has run). -/
inductive WorkerPc where
  | gen (acc : List String) (rest : List (Bool × String))
  | synth (text : String)
  | done
deriving DecidableEq

/-- One pipeline worker task: its creation identifier, its cancellation flag
(the `asyncio.Event` created for it in `run_llm_pipeline`), and its program
counter. -/
structure Task where
  tid : Nat
  intr : Bool
  pc : WorkerPc
deriving DecidableEq

/-- Program counter of the receive-loop coroutine between suspension points.
`rIdle` is suspended at `websocket.receive()`; `rTranscribe u` is suspended
inside the audio branch at the transcription call for utterance `u`;
`rStartPipe t` is suspended just after sending the `stt` message, about to
enter `run_llm_pipeline(t)`; `rAwaitTask t` is suspended at `await llm_task`
inside `run_llm_pipeline(t)`; `rClosed` means the handler has left its loop
and closed the connection. -/
inductive HandlerPc where
  | rIdle
  | rTranscribe (utterance : List Nat)
  | rStartPipe (transcript : String)
  | rAwaitTask (transcript : String)
  | rClosed
deriving DecidableEq

/-- The collaborator oracles of one session: vad frames, whisper transcripts,
LLM fragment streams and piper audio chunks. -/
structure Oracles where
  vad : List Nat → Except String Bool
  whisper : List Nat → Except String String
  llm : String → Except String (List String)
  piper : String → Except String (List (List Nat))

/-- The whole observable state of one `websocket_handler` session.  `tasks`
records every worker task ever created, in creation order; `llmTask` and
`llmInterrupt` hold the identifiers the Python variables `llm_task` and
`llm_interrupt` currently reference (`llm_interrupt` is `none` once cleared
by the worker `finally` block); `out` is the ordered outbound stream. -/
structure Config where
  inbox : List InEvent
  handler : HandlerPc
  processor : AudioProcessor
  tasks : List Task
  llmTask : Option Nat
  llmInterrupt : Option Nat
  nextId : Nat
  out : List Msg

/-- A scheduling choice: advance the receive-loop coroutine, or advance the
worker task stored at position `i` of the creation list.  A disabled choice
leaves the configuration unchanged. -/
inductive Choice where
  | hand
  | work (i : Nat)

def findTask (c : Config) (i : Nat) : Option Task :=
  c.tasks.find? (fun t => t.tid == i)

def taskDoneB (t : Task) : Bool :=
  match t.pc with
  | .done => true
  | _ => false

/-- Truth value of `llm_task and not llm_task.done()`. -/
def taskBusy (c : Config) : Bool :=
  match c.llmTask with
  | none => false
  | some i =>
    match findTask c i with
    | some t => !taskDoneB t
    | none => false

/-- Set the cancellation event of the task with identifier `i`
(`llm_interrupt.set()` on the event owned by that task). -/
def setIntr (c : Config) (i : Nat) : Config :=
  { c with tasks := c.tasks.map (fun t => if t.tid = i then { t with intr := true } else t) }

/-- Replace the program counter of the task with identifier `i`. -/
def setPc (c : Config) (i : Nat) (pc : WorkerPc) : Config :=
  { c with tasks := c.tasks.map (fun t => if t.tid = i then { t with pc := pc } else t) }

/-- The worker `finally` block (lines 276-279): set the session interrupt
event if one is referenced, clear the `llm_interrupt` variable, and mark the
task with identifier `i` terminated. -/
def finishTask (c : Config) (i : Nat) : Config :=
  let c1 :=
    match c.llmInterrupt with
    | some j => { setIntr c j with llmInterrupt := none }
    | none => c
  setPc c1 i .done

/-- The tail of `run_llm_pipeline` (lines 247-281), reached once no prior
task is running: allocate a fresh unset interrupt event, send `llm_start`,
and create the worker task for transcript `t`.  The `llm_start` send is an
await, but no other coroutine of the session is runnable there (the prior
worker has terminated and the receive loop itself is executing this code),
so the block is atomic. -/
def createPipeline (O : Oracles) (c : Config) (t : String) : Config :=
  { c with
    llmInterrupt := some c.nextId
    llmTask := some c.nextId
    tasks := c.tasks ++ [⟨c.nextId, false, .gen [] (generate_llm_response (O.llm t))⟩]
    nextId := c.nextId + 1
    out := c.out ++ [.llm_start]
    handler := .rIdle }

/-- The `interrupt` branch of the receive loop (lines 313-317): if the
session references an unset interrupt event, set it and send
`interrupt_ack`; in every case clear the audio buffer.  The task is not
awaited. -/
def handleInterrupt (c : Config) : Config :=
  let c1 :=
    match c.llmInterrupt with
    | some i =>
      match findTask c i with
      | some t =>
        if t.intr then c
        else { setIntr c i with out := c.out ++ [Msg.interrupt_ack] }
      | none => c
    | none => c
  { c1 with processor := ⟨[]⟩ }

/-- An exception escaping the receive loop (for example the `AttributeError`
raised by `data.get` on a non-object payload): the outer `except` logs it and
the `finally` block cancels any active worker task and closes the
connection. -/
def crashClose (c : Config) : Config :=
  let c1 :=
    if taskBusy c then
      let c2 :=
        match c.llmInterrupt with
        | some j => setIntr c j
        | none => c
      match c.llmTask with
      | some i => setPc c2 i .done
      | none => c2
    else c
  { c1 with handler := .rClosed, llmInterrupt := none }

/-- The receive-loop body for one inbound event (lines 284-326), entered from
the `rIdle` suspension point. -/
def handleIdle (O : Oracles) (c : Config) : Config :=
  match c.inbox with
  | [] => c
  | ev :: rest =>
    match ev with
    | .audio chunk =>
      if chunk.isEmpty then { c with inbox := rest }
      else
        match add_audio O.vad c.processor chunk with
        | (none, p) => { c with inbox := rest, processor := p }
        | (some u, p) =>
          { c with inbox := rest, processor := p, handler := .rTranscribe u }
    | .text none => { c with inbox := rest }
    | .text (some (.obj fields)) =>
      match fields.lookup "type" with
      | some (.str kind) =>
        if kind = "interrupt" then handleInterrupt { c with inbox := rest }
        else if kind = "prompt" then
          match promptTextValue (fields.lookup "text") with
          | .error _ => crashClose { c with inbox := rest }
          | .ok s =>
            if pyStrip s = "" then { c with inbox := rest }
            else
              { c with inbox := rest
                       out := c.out ++ [.stt (pyStrip s) true]
                       handler := .rStartPipe (pyStrip s) }
        else if kind = "ping" then
          { c with inbox := rest, out := c.out ++ [.pong (fields.lookup "id")] }
        else { c with inbox := rest }
      | _ => { c with inbox := rest }
    | .text (some _) => crashClose { c with inbox := rest }

/-- One step of the receive-loop coroutine from its current suspension
point. -/
def handlerStep (O : Oracles) (c : Config) : Config :=
  match c.handler with
  | .rClosed => c
  | .rIdle => handleIdle O c
  | .rTranscribe u =>
    match transcribe_audio (O.whisper u) with
    | none => { c with handler := .rIdle }
    | some t =>
      { c with handler := .rStartPipe t, out := c.out ++ [.stt t true] }
  | .rStartPipe t =>
    if taskBusy c then
      match c.llmInterrupt with
      | some j => { setIntr c j with handler := .rAwaitTask t }
      | none => { c with handler := .rAwaitTask t }
    else createPipeline O c t
  | .rAwaitTask t =>
    if taskBusy c then c else createPipeline O c t

/-- One step of the worker task stored at position `idx` of the creation
list, from its current suspension point (lines 250-279).  A pending fragment
whose yield is preceded by the interrupt check (`if interrupt_event.is_set():
break`, lines 187-188) is suppressed when the task flag is set; the
`"Error: ..."` fragment of the `except` branch carries no such check
(line 195) and the worker forwards every received fragment unconditionally
(line 256), so an unchecked fragment is emitted even with the flag set.  The
final `if full_text and not llm_interrupt.is_set()` check and the
`llm_final` send are atomic with the last fragment request; the synthesis
call and the unconditional `tts_audio` send are atomic after the `llm_final`
send suspension.  While a worker is alive, `llm_interrupt` references its own
event (an invariant proved below), so both checks read the task flag. -/
def workStep (O : Oracles) (c : Config) (idx : Nat) : Config :=
  match c.tasks.get? idx with
  | none => c
  | some t =>
    match t.pc with
    | .done => c
    | .gen acc rest =>
      match rest with
      | (chk, tok) :: rest2 =>
        if t.intr && chk then finishTask c t.tid
        else
          { setPc c t.tid (.gen (acc ++ [tok]) rest2) with
              out := c.out ++ [Msg.llm t.tid tok] }
      | [] =>
        if t.intr || acc.isEmpty then finishTask c t.tid
        else
          { setPc c t.tid (.synth (String.join acc)) with
              out := c.out ++ [Msg.llm_final t.tid (String.join acc)] }
    | .synth text =>
      match synthesize_speech (O.piper text) with
      | some a => finishTask { c with out := c.out ++ [.tts_audio t.tid a "wav"] } t.tid
      | none => finishTask c t.tid

/-- One step of the session under a scheduling choice. -/
def step (O : Oracles) (c : Config) : Choice → Config
  | .hand => handlerStep O c
  | .work i => workStep O c i

/-- Run the session under a schedule. -/
def run (O : Oracles) (c : Config) (sched : List Choice) : Config :=
  sched.foldl (step O) c

/-- The session state right after `accept` and the `ready` send
(lines 231-236). -/
def initConfig (inbox : List InEvent) : Config :=
  { inbox := inbox
    handler := .rIdle
    processor := ⟨[]⟩
    tasks := []
    llmTask := none
    llmInterrupt := none
    nextId := 0
    out := [.ready] }

/-- The number of non-terminated worker tasks of a session. -/
def activeCount (c : Config) : Nat :=
  (c.tasks.filter (fun t => !taskDoneB t)).length

/-! ### Concrete inbound events and oracles used in counterexamples -/

def promptEvent (p : String) : InEvent :=
  .text (some (.obj [("type", Json.str "prompt"), ("text", Json.str p)]))

def interruptEvent : InEvent :=
  .text (some (.obj [("type", Json.str "interrupt")]))

def pingEvent : InEvent :=
  .text (some (.obj [("type", Json.str "ping")]))

/-- Baseline oracles: one LLM fragment, synthesis succeeds. -/
def O0 : Oracles :=
  { vad := fun _ => .ok true
    whisper := fun _ => .error "unused"
    llm := fun _ => .ok ["ok"]
    piper := fun _ => .ok [[1, 2, 3]] }

/-- Oracles whose LLM yields an empty fragment stream. -/
def O4 : Oracles :=
  { O0 with llm := fun _ => .ok [] }

/-- Oracles whose synthesis collaborator raises. -/
def O5 : Oracles :=
  { O0 with piper := fun _ => .error "piper failed" }

/-- Oracles whose LLM collaborator raises. -/
def OE : Oracles :=
  { O0 with llm := fun _ => .error "boom" }

/-- The session state after a prompt turn whose generation collaborator
raises: the worker holds the pending unchecked `"Error: boom"` fragment,
and the interrupt control message is next in the inbox. -/
def cE : Config :=
  run OE (initConfig [promptEvent "hi", interruptEvent]) [.hand, .hand]

/-- The inductive session invariant over the task list, the `llm_task`
reference, the `llm_interrupt` reference and the identifier counter:
identifiers are below the counter and pairwise distinct, `llm_task` points
at the most recently created task, `llm_interrupt` (when set) agrees with
`llm_task`, and every task except possibly the most recent one has
terminated. -/
def InvP (ts : List Task) (lt li : Option Nat) (n : Nat) : Prop :=
  (∀ t ∈ ts, t.tid < n) ∧
  (∀ i, lt = some i → ∃ t, ts.getLast? = some t ∧ t.tid = i) ∧
  (lt = none → ts = []) ∧
  (∀ t ∈ ts.dropLast, t.pc = .done) ∧
  (∀ i, li = some i → lt = some i) ∧
  (ts.map Task.tid).Nodup

def Inv (c : Config) : Prop := InvP c.tasks c.llmTask c.llmInterrupt c.nextId

/-- The fragment texts a worker at program counter `p` can still send
despite its cancellation flag being set: the pending fragments whose yield
is not preceded by the interrupt check (the `"Error: ..."` yield of the
`except` branch of `generate_llm_response`, line 195).  A checked pending
fragment is suppressed by the break, and a worker past its generation loop
sends no further `llm` message. -/
def staleFragments : WorkerPc → List String
  | .gen _ rest => (rest.filter (fun f => !f.1)).map Prod.snd
  | _ => []

/-- A message is an admissible emission from configuration `c`: any
`llm_final` it carries is attributed to a currently stored task whose
cancellation flag is unset, and any `llm` it carries is attributed to a
stored task whose flag is unset or whose pending unchecked fragments
contain the sent text. -/
def okEmit (c : Config) (m : Msg) : Prop :=
  (∀ i s, m = .llm_final i s →
    ∃ t, t ∈ c.tasks ∧ t.tid = i ∧ t.intr = false)
  ∧ (∀ i s, m = .llm i s →
    ∃ t, t ∈ c.tasks ∧ t.tid = i ∧
      (t.intr = false ∨ s ∈ staleFragments t.pc))

/-- Identifier `i` is dead in a task list up to the residue `S`: it is
below the allocation counter and every stored task carrying it has its
cancellation flag set and can still send only fragment texts from `S`. -/
def deadL (ts : List Task) (n i : Nat) (S : List String) : Prop :=
  i < n ∧ ∀ t ∈ ts, t.tid = i → t.intr = true ∧ staleFragments t.pc ⊆ S

/-- Identifier `i` is dead in configuration `c` up to the residue `S`. -/
def intrDead (c : Config) (i : Nat) (S : List String) : Prop :=
  deadL c.tasks c.nextId i S

/-! ### List helper lemmas -/

lemma dropLast_map {α β : Type} (f : α → β) :
    ∀ (l : List α), (l.map f).dropLast = l.dropLast.map f
  | [] => rfl
  | [_] => rfl
  | _ :: b :: m => by
    show _ :: ((b :: m).map f).dropLast = _ :: ((b :: m).dropLast.map f)
    rw [dropLast_map f (b :: m)]

lemma taskDoneB_iff (t : Task) : taskDoneB t = true ↔ t.pc = .done := by
  cases hp : t.pc <;> simp [taskDoneB, hp]

/-! ### The single-active-task invariant -/

lemma inv_init (inbox : List InEvent) : Inv (initConfig inbox) := by
  refine ⟨?_, ?_, ?_, ?_, ?_, ?_⟩ <;> simp [initConfig]

/-- A task-wise rewrite that keeps identifiers and turns no terminated task
back into a running one preserves the invariant. -/
lemma invP_map_keep {ts : List Task} {lt li : Option Nat} {n : Nat}
    {f : Task → Task} (htid : ∀ x, (f x).tid = x.tid)
    (hpc : ∀ x, (f x).pc = x.pc ∨ (f x).pc = .done)
    (h : InvP ts lt li n) : InvP (ts.map f) lt li n := by
  obtain ⟨hA, hB, hC, hD, hE, hF⟩ := h
  refine ⟨?_, ?_, ?_, ?_, hE, ?_⟩
  · intro t ht
    obtain ⟨x, hx, rfl⟩ := List.mem_map.mp ht
    rw [htid]; exact hA x hx
  · intro i hi
    obtain ⟨t, hlast, htid2⟩ := hB i hi
    exact ⟨f t, by rw [List.getLast?_map, hlast]; rfl, by rw [htid]; exact htid2⟩
  · intro hi; rw [hC hi]; rfl
  · intro t ht
    rw [dropLast_map] at ht
    obtain ⟨x, hx, rfl⟩ := List.mem_map.mp ht
    rcases hpc x with hp | hp
    · rw [hp]; exact hD x hx
    · exact hp
  · have : (ts.map f).map Task.tid = ts.map Task.tid := by
      rw [List.map_map]; exact List.map_congr_left (fun x _ => htid x)
    rw [this]; exact hF

lemma invP_li_none {ts : List Task} {lt li : Option Nat} {n : Nat}
    (h : InvP ts lt li n) : InvP ts lt none n := by
  obtain ⟨hA, hB, hC, hD, hE, hF⟩ := h
  exact ⟨hA, hB, hC, hD, fun i hi => Option.noConfusion hi, hF⟩

lemma inv_setIntr {c : Config} (j : Nat) (h : Inv c) : Inv (setIntr c j) :=
  invP_map_keep (fun x => by by_cases hx : x.tid = j <;> simp [hx])
    (fun x => by by_cases hx : x.tid = j <;> simp [hx]) h

lemma inv_setPcDone {c : Config} (i : Nat) (h : Inv c) : Inv (setPc c i .done) :=
  invP_map_keep (fun x => by by_cases hx : x.tid = i <;> simp [hx])
    (fun x => by by_cases hx : x.tid = i <;> simp [hx]) h

lemma inv_finishTask {c : Config} (i : Nat) (h : Inv c) : Inv (finishTask c i) := by
  unfold finishTask
  rcases hli : c.llmInterrupt with - | j
  · exact inv_setPcDone i h
  · exact inv_setPcDone i (invP_li_none (inv_setIntr j h))

/-- Advancing the program counter of a currently running task preserves the
invariant: by the invariant such a task is the most recently created one. -/
lemma inv_advance {c : Config} {idx : Nat} {t : Task} (newpc : WorkerPc)
    (hg : c.tasks.get? idx = some t) (hnd : t.pc ≠ .done) (h : Inv c) :
    Inv (setPc c t.tid newpc) := by
  obtain ⟨hA, hB, hC, hD, hE, hF⟩ := h
  have hmem : t ∈ c.tasks := List.get?_mem hg
  have hnil : c.tasks ≠ [] := by intro he; rw [he] at hmem; cases hmem
  have hndrop : t ∉ c.tasks.dropLast := fun hx => hnd (hD t hx)
  have hsplit := List.dropLast_append_getLast hnil
  have hlast : t = c.tasks.getLast hnil := by
    have := hmem
    rw [← hsplit] at this
    rcases List.mem_append.mp this with hx | hx
    · exact absurd hx hndrop
    · simpa using hx
  set f : Task → Task := fun x => if x.tid = t.tid then { x with pc := newpc } else x with hf
  have htid : ∀ x, (f x).tid = x.tid := fun x => by
    by_cases hx : x.tid = t.tid <;> simp [hf, hx]
  refine ⟨?_, ?_, ?_, ?_, hE, ?_⟩
  · intro u hu
    obtain ⟨x, hx, rfl⟩ := List.mem_map.mp hu
    rw [htid]; exact hA x hx
  · intro i hi
    obtain ⟨u, hlu, hut⟩ := hB i hi
    exact ⟨f u, by rw [show (setPc c t.tid newpc).tasks = c.tasks.map f from rfl,
      List.getLast?_map, hlu]; rfl, by rw [htid]; exact hut⟩
  · intro hi
    show c.tasks.map f = []
    rw [hC hi]; rfl
  · intro u hu
    rw [show (setPc c t.tid newpc).tasks = c.tasks.map f from rfl, dropLast_map] at hu
    obtain ⟨x, hx, rfl⟩ := List.mem_map.mp hu
    have hxt : x.tid ≠ t.tid := by
      intro he
      have hxl : x.tid ∈ c.tasks.dropLast.map Task.tid := List.mem_map_of_mem Task.tid hx
      have : (c.tasks.dropLast.map Task.tid ++ [(c.tasks.getLast hnil).tid]).Nodup := by
        have := hF
        rw [← hsplit, List.map_append] at this
        simpa using this
      have hdisj := (List.nodup_append.mp this).2.2
      exact hdisj hxl (by simp [he, hlast])
    have : f x = x := by simp [hf, hxt]
    rw [this]; exact hD x hx
  · have : ((setPc c t.tid newpc).tasks).map Task.tid = c.tasks.map Task.tid := by
      rw [show (setPc c t.tid newpc).tasks = c.tasks.map f from rfl, List.map_map]
      exact List.map_congr_left (fun x _ => htid x)
    rw [this]; exact hF

lemma all_done_of_not_busy {c : Config} (h : Inv c) (hb : taskBusy c = false) :
    ∀ t ∈ c.tasks, t.pc = .done := by
  obtain ⟨hA, hB, hC, hD, hE, hF⟩ := h
  intro t ht
  rcases hlt : c.llmTask with - | i
  · rw [hC hlt] at ht; cases ht
  · obtain ⟨last, hlastq, hltid⟩ := hB i hlt
    have hnil : c.tasks ≠ [] := by
      intro he; rw [he] at hlastq; cases hlastq
    have hlast : last = c.tasks.getLast hnil := by
      have := List.getLast?_eq_getLast_of_ne_nil hnil
      rw [hlastq] at this
      exact Option.some.inj this
    have hlmem : last ∈ c.tasks := hlast ▸ List.getLast_mem hnil
    rcases hft : findTask c i with - | u
    · exfalso
      unfold findTask at hft
      rw [List.find?_eq_none] at hft
      exact hft last hlmem (by simp [hltid])
    · have hu1 : u.tid = i := by
        have := List.find?_some hft
        simpa using this
      have hu2 : u ∈ c.tasks := List.mem_of_find?_eq_some hft
      have hud : u.pc = .done := by
        simp only [taskBusy, hlt, hft] at hb
        have hb2 : taskDoneB u = true := by simpa using hb
        exact (taskDoneB_iff u).mp hb2
      have hul : u = last := List.inj_on_of_nodup_map hF hu2 hlmem (by rw [hu1, hltid])
      have hldone : last.pc = .done := hul ▸ hud
      have := ht
      rw [← List.dropLast_append_getLast hnil] at this
      rcases List.mem_append.mp this with hx | hx
      · exact hD t hx
      · have : t = c.tasks.getLast hnil := by simpa using hx
        rw [this, ← hlast]; exact hldone

lemma invP_create {ts : List Task} {lt li : Option Nat} {n : Nat}
    (h : InvP ts lt li n) (hdone : ∀ t ∈ ts, t.pc = .done) (pc0 : WorkerPc) :
    InvP (ts ++ [⟨n, false, pc0⟩]) (some n) (some n) (n + 1) := by
  obtain ⟨hA, hB, hC, hD, hE, hF⟩ := h
  refine ⟨?_, ?_, ?_, ?_, ?_, ?_⟩
  · intro t ht
    rcases List.mem_append.mp ht with hx | hx
    · exact Nat.lt_succ_of_lt (hA t hx)
    · have : t = ⟨n, false, pc0⟩ := by simpa using hx
      rw [this]; exact Nat.lt_succ_self n
  · intro i hi
    refine ⟨⟨n, false, pc0⟩, List.getLast?_concat ts, ?_⟩
    exact Option.some.inj hi
  · intro hi; cases hi
  · intro t ht
    rw [List.dropLast_concat] at ht
    exact hdone t ht
  · intro i hi; exact hi
  · rw [List.map_append]
    rw [List.nodup_append]
    refine ⟨hF, by simp, ?_⟩
    intro a ha hb
    have : a = n := by simpa using hb
    obtain ⟨x, hx, rfl⟩ := List.mem_map.mp ha
    exact absurd this (Nat.ne_of_lt (hA x hx))

lemma inv_createPipeline (O : Oracles) {c : Config} (tr : String)
    (h : Inv c) (hb : taskBusy c = false) : Inv (createPipeline O c tr) :=
  invP_create h (all_done_of_not_busy h hb) _

lemma inv_handleInterrupt {c : Config} (h : Inv c) : Inv (handleInterrupt c) := by
  unfold handleInterrupt
  rcases hli : c.llmInterrupt with - | i <;> (try dsimp only)
  · exact h
  · rcases hft : findTask c i with - | t <;> simp only [hft]
    · exact h
    · cases hi : t.intr <;> simp only [hi, Bool.false_eq_true, if_false, if_true]
      · exact inv_setIntr i h
      · exact h

lemma inv_crashClose {c : Config} (h : Inv c) : Inv (crashClose c) := by
  unfold crashClose
  cases hb : taskBusy c <;>
    simp only [hb, Bool.false_eq_true, if_false, if_true] <;> (try dsimp only)
  · exact invP_li_none h
  · rcases hli : c.llmInterrupt with - | j <;> (try dsimp only)
    · rcases hlt : c.llmTask with - | i <;> (try dsimp only)
      · exact invP_li_none h
      · exact invP_li_none (inv_setPcDone i h)
    · rcases hlt : c.llmTask with - | i <;> (try dsimp only)
      · exact invP_li_none (inv_setIntr j h)
      · exact invP_li_none (inv_setPcDone i (inv_setIntr j h))

lemma inv_handleIdle (O : Oracles) {c : Config} (h : Inv c) :
    Inv (handleIdle O c) := by
  unfold handleIdle
  rcases hin : c.inbox with - | ⟨ev, rest⟩ <;> (try dsimp only)
  · exact h
  · rcases ev with chunk | payload <;> (try dsimp only)
    · by_cases hc : chunk.isEmpty = true <;>
        simp only [hc, Bool.false_eq_true, if_false, if_true]
      · exact h
      · rcases ha : add_audio O.vad c.processor chunk with ⟨- | u, p⟩ <;>
          simp only [ha]
        · exact h
        · exact h
    · rcases payload with - | j <;> (try dsimp only)
      · exact h
      · rcases j with fields | el | s | n | b | - <;> (try dsimp only)
        · rcases hk : List.lookup "type" fields with - | k <;> (try simp only [hk])
          · exact h
          · rcases k with f2 | e2 | kind | n2 | b2 | - <;> (try dsimp only)
            · exact h
            · exact h
            · by_cases h1 : kind = "interrupt"
              · rw [if_pos h1]; exact inv_handleInterrupt h
              · rw [if_neg h1]
                by_cases h2 : kind = "prompt"
                · rw [if_pos h2]
                  rcases hpv : promptTextValue (List.lookup "text" fields)
                      with e3 | s3 <;> simp only [hpv]
                  · exact inv_crashClose h
                  · by_cases h4 : pyStrip s3 = ""
                    · rw [if_pos h4]; exact h
                    · rw [if_neg h4]; exact h
                · rw [if_neg h2]
                  by_cases h3 : kind = "ping"
                  · rw [if_pos h3]; exact h
                  · rw [if_neg h3]; exact h
            · exact h
            · exact h
            · exact h
        · exact inv_crashClose h
        · exact inv_crashClose h
        · exact inv_crashClose h
        · exact inv_crashClose h
        · exact inv_crashClose h

lemma inv_handlerStep (O : Oracles) {c : Config} (h : Inv c) :
    Inv (handlerStep O c) := by
  unfold handlerStep
  rcases hh : c.handler with - | u | tr | tr | - <;> (try dsimp only)
  · exact inv_handleIdle O h
  · rcases ht : transcribe_audio (O.whisper u) with - | t <;> simp only [ht]
    · exact h
    · exact h
  · cases hb : taskBusy c <;>
      simp only [hb, Bool.false_eq_true, if_false, if_true]
    · exact inv_createPipeline O tr h hb
    · rcases hli : c.llmInterrupt with - | j <;> (try dsimp only)
      · exact hli ▸ h
      · exact inv_setIntr j h
  · cases hb : taskBusy c <;>
      simp only [hb, Bool.false_eq_true, if_false, if_true]
    · exact inv_createPipeline O tr h hb
    · exact h
  · exact h

lemma inv_workStep (O : Oracles) {c : Config} (idx : Nat) (h : Inv c) :
    Inv (workStep O c idx) := by
  unfold workStep
  rcases hg : c.tasks.get? idx with - | t <;> simp only [hg]
  · exact h
  · rcases hpc : t.pc with ⟨acc, rest⟩ | text | - <;> (try dsimp only)
    · rcases rest with - | ⟨⟨chk, tok⟩, rest2⟩ <;> (try dsimp only)
      · cases hcond : (t.intr || acc.isEmpty) <;>
          simp only [hcond, Bool.false_eq_true, if_false, if_true]
        · exact inv_advance _ hg (by rw [hpc]; intro hx; cases hx) h
        · exact inv_finishTask t.tid h
      · cases hcond : (t.intr && chk) <;>
          simp only [hcond, Bool.false_eq_true, if_false, if_true]
        · exact inv_advance _ hg (by rw [hpc]; intro hx; cases hx) h
        · exact inv_finishTask t.tid h
    · rcases hs : synthesize_speech (O.piper text) with - | a <;> simp only [hs]
      · exact inv_finishTask t.tid h
      · exact inv_finishTask t.tid h
    · exact h

lemma inv_step (O : Oracles) (ch : Choice) {c : Config} (h : Inv c) :
    Inv (step O c ch) := by
  cases ch with
  | hand => exact inv_handlerStep O h
  | work i => exact inv_workStep O i h

lemma inv_run (O : Oracles) (sched : List Choice) :
    ∀ {c : Config}, Inv c → Inv (run O c sched) := by
  induction sched with
  | nil => intro c h; exact h
  | cons ch tail ih => intro c h; exact ih (inv_step O ch h)

lemma activeCount_le_one {c : Config} (h : Inv c) : activeCount c ≤ 1 := by
  have hD : ∀ t ∈ c.tasks.dropLast, t.pc = .done := h.2.2.2.1
  unfold activeCount
  by_cases hnil : c.tasks = []
  · simp [hnil]
  · have hsplit := List.dropLast_append_getLast hnil
    have hdropnil : c.tasks.dropLast.filter (fun t => !taskDoneB t) = [] := by
      rw [List.filter_eq_nil_iff]
      intro t ht
      have := hD t ht
      simp [taskDoneB, this]
    have heq : c.tasks.filter (fun t => !taskDoneB t)
        = (c.tasks.dropLast ++ [c.tasks.getLast hnil]).filter
            (fun t => !taskDoneB t) := by
      conv_lhs => rw [← hsplit]
    rw [heq, List.filter_append, hdropnil]
    simp only [List.nil_append, List.filter_cons]
    by_cases hx : (!taskDoneB (c.tasks.getLast hnil)) = true <;> simp [hx]

/-- Claim C1: for every oracle family, inbound event sequence and
interleaving of receive-loop and worker steps, at most one non-terminated
pipeline worker task exists at any instant — `run_llm_pipeline` awaits the
prior task to its terminal state before creating a new one. -/
theorem single_active_generation_task (O : Oracles) (inbox : List InEvent)
    (sched : List Choice) : activeCount (run O (initConfig inbox) sched) ≤ 1 :=
  activeCount_le_one (inv_run O sched (inv_init inbox))

/-- Case characterization of `add_audio`. -/
lemma add_audio_char (vad : List Nat → Except String Bool)
    (p : AudioProcessor) (bytes : List Nat) :
    ((p.buffer ++ bytes).length < frame_size * 2 →
      add_audio vad p bytes = (none, ⟨p.buffer ++ bytes⟩))
  ∧ (vad ((p.buffer ++ bytes).take (frame_size * 2)) = .ok false →
      sample_rate * 2 < (p.buffer ++ bytes).length →
      add_audio vad p bytes = (some (p.buffer ++ bytes), ⟨[]⟩))
  ∧ (∀ b, vad ((p.buffer ++ bytes).take (frame_size * 2)) = .ok b →
      (b = true ∨ (p.buffer ++ bytes).length ≤ sample_rate * 2) →
      frame_size * 2 ≤ (p.buffer ++ bytes).length →
      add_audio vad p bytes = (none, ⟨p.buffer ++ bytes⟩)) := by
  have h960 : frame_size * 2 ≤ sample_rate * 2 := by
    norm_num [frame_size, sample_rate, frame_duration_ms]
  refine ⟨?_, ?_, ?_⟩
  · intro hlen
    unfold add_audio
    dsimp only
    rw [if_pos hlen]
  · intro hv hlen
    unfold add_audio
    dsimp only
    rw [if_neg (not_lt.mpr (le_trans h960 (le_of_lt hlen))), hv]
    dsimp only
    rw [if_pos ⟨rfl, hlen⟩]
  · intro b hv hcase hlen
    unfold add_audio
    dsimp only
    rw [if_neg (not_lt.mpr hlen), hv]
    dsimp only
    have hcond : ¬(b = false ∧ sample_rate * 2 < (p.buffer ++ bytes).length) := by
      rcases hcase with hb | hb
      · intro hx; rw [hb] at hx; exact absurd hx.1 (by simp)
      · intro hx; exact absurd hb (not_le.mpr hx.2)
    rw [if_neg hcond]

/-! ### Claims about the segmenter and the stage functions -/

/-- Claim C3 (counterexample): with an empty buffer, an incoming chunk of
exactly the 1-second threshold of 32000 bytes, and a VAD oracle classifying
the leading frame as non-speech, `add_audio` returns no utterance and keeps
the buffer: the code requires strictly more than 32000 bytes, so the claimed
"at least the threshold (32000 bytes)" fails at the boundary. -/
theorem add_audio_threshold_boundary_returns_none :
    add_audio (fun _ => Except.ok false) ⟨[]⟩ (List.replicate 32000 0)
      = (none, ⟨List.replicate 32000 0⟩) := by
  have h := (add_audio_char (fun _ => Except.ok false) ⟨[]⟩
      (List.replicate 32000 0)).2.2 false rfl
    (Or.inr (by
      simp only [List.nil_append, List.length_replicate, sample_rate]; omega))
    (by
      simp only [List.nil_append, List.length_replicate, frame_size,
        sample_rate, frame_duration_ms]; omega)
  simpa only [List.nil_append] using h

/-- Claim C3 (amended): `add_audio` first appends the input to the buffer;
if the result holds fewer than 960 bytes (one 30 ms frame) it returns none;
if the oracle classifies the leading frame as non-speech and the buffer
holds strictly more than 32000 bytes it returns the whole buffer and clears
it; in every other oracle-success case it returns none and retains the
buffer. -/
theorem add_audio_spec (vad : List Nat → Except String Bool)
    (p : AudioProcessor) (bytes : List Nat) :
    ((p.buffer ++ bytes).length < frame_size * 2 →
      add_audio vad p bytes = (none, ⟨p.buffer ++ bytes⟩))
  ∧ (vad ((p.buffer ++ bytes).take (frame_size * 2)) = .ok false →
      sample_rate * 2 < (p.buffer ++ bytes).length →
      add_audio vad p bytes = (some (p.buffer ++ bytes), ⟨[]⟩))
  ∧ (∀ b, vad ((p.buffer ++ bytes).take (frame_size * 2)) = .ok b →
      (b = true ∨ (p.buffer ++ bytes).length ≤ sample_rate * 2) →
      frame_size * 2 ≤ (p.buffer ++ bytes).length →
      add_audio vad p bytes = (none, ⟨p.buffer ++ bytes⟩)) :=
  add_audio_char vad p bytes

/-- Witness for `add_audio_spec`: 32001 bytes of silence-classified audio
close an utterance consisting of the whole buffer. -/
theorem add_audio_spec_witness :
    add_audio (fun _ => Except.ok false) ⟨[]⟩ (List.replicate 32001 0)
      = (some (List.replicate 32001 0), ⟨[]⟩) := by
  have h := (add_audio_spec (fun _ => Except.ok false) ⟨[]⟩
    (List.replicate 32001 0)).2.1 rfl
    (by simp only [List.nil_append, List.length_replicate, sample_rate]; omega)
  simpa only [List.nil_append] using h

/-- Claim C9: if the VAD oracle raises during a call of `add_audio`, the
call emits no utterance and the buffer is retained with the new bytes
appended, deferring the decision to future calls. -/
theorem vad_error_retains_buffer (vad : List Nat → Except String Bool)
    (p : AudioProcessor) (bytes : List Nat) (e : String)
    (hlen : frame_size * 2 ≤ (p.buffer ++ bytes).length)
    (hv : vad ((p.buffer ++ bytes).take (frame_size * 2)) = .error e) :
    add_audio vad p bytes = (none, ⟨p.buffer ++ bytes⟩) := by
  unfold add_audio
  dsimp only
  rw [if_neg (not_lt.mpr hlen), hv]

/-- Witness for `vad_error_retains_buffer` at a concrete frame of 960
bytes. -/
theorem vad_error_retains_buffer_witness :
    add_audio (fun _ => Except.error "vad boom") ⟨[]⟩ (List.replicate 960 0)
      = (none, ⟨List.replicate 960 0⟩) := by
  have h := vad_error_retains_buffer (fun _ => Except.error "vad boom") ⟨[]⟩
    (List.replicate 960 0) "vad boom"
    (by simp only [List.nil_append, List.length_replicate, frame_size,
          sample_rate, frame_duration_ms]; omega) rfl
  simpa only [List.nil_append] using h

/-- Claim C5 (amended): every collaborator error is caught and contained,
but it is not reported through an `error` message: a transcription error is
swallowed (the stage returns none and the turn aborts silently), a
generation error is surfaced as a single streamed fragment `"Error: ..."`
(an `llm` message) whose yield carries no interrupt check, and a synthesis
error yields none so the `tts_audio` message is simply skipped. -/
theorem collaborator_error_containment :
    (∀ e : String, transcribe_audio (Except.error e) = none)
  ∧ (∀ e : String, generate_llm_response (Except.error e)
      = [(false, "Error: " ++ e)])
  ∧ (∀ e : String, synthesize_speech (Except.error e) = none) :=
  ⟨fun _ => rfl, fun _ => rfl, fun _ => rfl⟩

/-! ### Concrete counterexample traces -/

/-- Claim C5 (counterexample): a full prompt turn in which the synthesis
collaborator raises: the error is caught and the task terminates, but no
`error` message is emitted — the outbound stream ends at `llm_final`,
contradicting the claim that any collaborator error is reported to the
client via an `error` message. -/
theorem synthesis_error_unreported_trace :
    run O5 (initConfig [promptEvent "hi"]) [.hand, .hand, .work 0, .work 0, .work 0]
    = { inbox := [], handler := .rIdle, processor := ⟨[]⟩,
        tasks := [⟨0, true, .done⟩], llmTask := some 0, llmInterrupt := none,
        nextId := 1,
        out := [.ready, .stt "hi" true, .llm_start, .llm 0 "ok",
                .llm_final 0 "ok"] } := by
  rfl

/-- Claim C4 (counterexample): a prompt turn whose generation collaborator
yields an empty fragment sequence: the sequence is exhausted with the
cancellation signal unset, yet no `llm_final` message is emitted — the
worker requires `full_text` to be non-empty. -/
theorem empty_fragments_no_llm_final :
    run O4 (initConfig [promptEvent "hi"]) [.hand, .hand, .work 0]
    = { inbox := [], handler := .rIdle, processor := ⟨[]⟩,
        tasks := [⟨0, true, .done⟩], llmTask := some 0, llmInterrupt := none,
        nextId := 1,
        out := [.ready, .stt "hi" true, .llm_start] } := by
  rfl

/-- Claim C7 (counterexample): an interrupt sent while the session is idle
(no task was ever started, `llm_interrupt` is None) produces no outbound
message at all — in particular no `interrupt_ack`, contradicting the claim
that it yields exactly one `interrupt_ack`. -/
theorem interrupt_while_idle_no_ack :
    run O0 (initConfig [interruptEvent]) [.hand]
    = { inbox := [], handler := .rIdle, processor := ⟨[]⟩, tasks := [],
        llmTask := none, llmInterrupt := none, nextId := 0,
        out := [.ready] } := by
  rfl

/-- Claim C8 (counterexample): a text payload that decodes to valid JSON
which is not an object (here the array `[]`) raises `AttributeError` in
`data.get`, which escapes the inner `try` (only `JSONDecodeError` is
caught) and terminates the session: the connection is closed and a
subsequent `ping` is never answered, contradicting the claim that every
undecodable payload is silently ignored with the loop continuing. -/
theorem nonobject_payload_closes_session :
    run O0 (initConfig [InEvent.text (some (Json.arr [])), pingEvent])
      [.hand, .hand]
    = { inbox := [pingEvent], handler := .rClosed, processor := ⟨[]⟩,
        tasks := [], llmTask := none, llmInterrupt := none, nextId := 0,
        out := [.ready] } := by
  rfl

/-- Claim C2 (counterexample): a concrete interleaving in which an interrupt
arrives while the worker is suspended at the synthesis call: the handler
sets the signal and emits `interrupt_ack` immediately without awaiting the
task, and the worker then emits the `tts_audio` message of the interrupted
task after the `interrupt_ack` — the send is unconditional after
`llm_final`. -/
theorem interrupt_ack_stale_tts_trace :
    (run O0 (initConfig [promptEvent "hi", interruptEvent])
      [.hand, .hand, .work 0, .work 0, .hand, .work 0]).out
    = [.ready, .stt "hi" true, .llm_start, .llm 0 "ok", .llm_final 0 "ok",
       .interrupt_ack, .tts_audio 0 (wavEncode [1, 2, 3]) "wav"] := by
  rfl

/-! ### Single-step behavior of the receive loop -/

lemma promptTextValue_str (p : String) :
    promptTextValue (some (.str p)) = .ok p := by
  unfold promptTextValue
  dsimp only
  by_cases hp : jsonTruthy (.str p) = true
  · rw [if_pos hp]
  · rw [if_neg hp]
    have : p = "" := by simpa [jsonTruthy] using hp
    rw [this]

/-- Behavior of one receive-loop step on a `prompt` control message. -/
lemma handleIdle_prompt (O : Oracles) (c : Config)
    (fields : List (String × Json)) (rest : List InEvent) (s : String)
    (hh : c.handler = .rIdle)
    (hin : c.inbox = .text (some (.obj fields)) :: rest)
    (htype : List.lookup "type" fields = some (.str "prompt"))
    (htext : promptTextValue (List.lookup "text" fields) = .ok s) :
    (pyStrip s ≠ "" →
      step O c .hand
        = { c with
            inbox := rest
            out := c.out ++ [.stt (pyStrip s) true]
            handler := .rStartPipe (pyStrip s) })
  ∧ (pyStrip s = "" → step O c .hand = { c with inbox := rest }) := by
  constructor <;> intro hs <;>
  · show handlerStep O c = _
    unfold handlerStep
    rw [hh]
    dsimp only
    unfold handleIdle
    rw [hin]
    dsimp only
    rw [htype]
    dsimp only
    rw [if_neg (by decide), if_pos rfl, htext]
    dsimp only
    first
      | rw [if_neg hs]
      | rw [if_pos hs]
    try (first | rfl | rw [hh])

/-- Claim C10: a `prompt` control message with a string (or missing) text
field: if the stripped text is non-empty the session emits one `stt`
message carrying the stripped text with `final := true` and moves to start
the pipeline; if the stripped text is empty (in particular if the field is
missing) no message is emitted and no pipeline is started. -/
theorem prompt_message_handling (O : Oracles) (c : Config)
    (fields : List (String × Json)) (rest : List InEvent) (s : String)
    (hh : c.handler = .rIdle)
    (hin : c.inbox = .text (some (.obj fields)) :: rest)
    (htype : List.lookup "type" fields = some (.str "prompt"))
    (htext : promptTextValue (List.lookup "text" fields) = .ok s) :
    (pyStrip s ≠ "" →
      step O c .hand
        = { c with
            inbox := rest
            out := c.out ++ [.stt (pyStrip s) true]
            handler := .rStartPipe (pyStrip s) })
  ∧ (pyStrip s = "" → step O c .hand = { c with inbox := rest }) :=
  handleIdle_prompt O c fields rest s hh hin htype htext

/-- Witness for `prompt_message_handling`: the prompt "hi" yields exactly
one `stt` message and moves the handler to the pipeline-start point. -/
theorem prompt_message_handling_witness :
    step O0 (initConfig [promptEvent "hi"]) .hand
      = { inbox := [], handler := .rStartPipe "hi", processor := ⟨[]⟩,
          tasks := [], llmTask := none, llmInterrupt := none, nextId := 0,
          out := [.ready, .stt "hi" true] } := by
  exact (prompt_message_handling O0 (initConfig [promptEvent "hi"])
    [("type", Json.str "prompt"), ("text", Json.str "hi")] [] "hi"
    rfl rfl rfl (promptTextValue_str "hi")).1 (by decide)

/-- Claim C6: when transcription of a finalized utterance fails or returns
an empty result, the step emits no message, starts no pipeline, and the
receive loop continues: the configuration is unchanged except that the
handler returns to its receive point. -/
theorem transcription_failure_silent (O : Oracles) (c : Config)
    (u : List Nat) (hh : c.handler = .rTranscribe u)
    (ht : transcribe_audio (O.whisper u) = none) :
    step O c .hand = { c with handler := .rIdle } := by
  show handlerStep O c = _
  unfold handlerStep
  rw [hh]
  dsimp only
  rw [ht]

/-- Witness for `transcription_failure_silent`: the whisper oracle of `O0`
raises, so an utterance of three bytes is dropped silently. -/
theorem transcription_failure_silent_witness :
    step O0 { initConfig [] with handler := .rTranscribe [1, 2, 3] } .hand
      = initConfig [] := by
  exact transcription_failure_silent O0
    { initConfig [] with handler := .rTranscribe [1, 2, 3] } [1, 2, 3] rfl rfl

/-- Claim C7 (amended): an interrupt received while the session interrupt
handle is clear (`llm_interrupt` is None — as it always is when no task is
active) yields no outbound message at all; the only effect is that the
audio buffer is cleared. -/
theorem interrupt_with_clear_handle_no_output (O : Oracles) (c : Config)
    (rest : List InEvent) (hh : c.handler = .rIdle)
    (hin : c.inbox = interruptEvent :: rest) (hli : c.llmInterrupt = none) :
    step O c .hand = { c with inbox := rest, processor := ⟨[]⟩ } := by
  show handlerStep O c = _
  unfold handlerStep
  rw [hh]
  dsimp only
  unfold handleIdle
  rw [hin]
  unfold interruptEvent
  dsimp only
  rw [show List.lookup "type" [("type", Json.str "interrupt")]
        = some (Json.str "interrupt") from rfl]
  dsimp only
  rw [if_pos rfl]
  unfold handleInterrupt
  dsimp only
  rw [hli]
  rw [hh]

/-- Witness for `interrupt_with_clear_handle_no_output` in the initial
session state. -/
theorem interrupt_with_clear_handle_no_output_witness :
    step O0 (initConfig [interruptEvent]) .hand
      = { inbox := [], handler := .rIdle, processor := ⟨[]⟩, tasks := [],
          llmTask := none, llmInterrupt := none, nextId := 0,
          out := [.ready] } := by
  exact interrupt_with_clear_handle_no_output O0
    (initConfig [interruptEvent]) [] rfl rfl rfl

lemma crashClose_out (c : Config) : (crashClose c).out = c.out := by
  unfold crashClose
  cases hb : taskBusy c
  · rfl
  · rcases c.llmInterrupt with - | j <;> rcases c.llmTask with - | i <;> rfl

/-- Claim C8 (amended): a text payload that fails JSON decoding is silently
dropped and the loop continues; a JSON object without a type field is
likewise silently dropped; but a payload that decodes to a non-object JSON
value raises an uncaught `AttributeError` that closes the session, emitting
nothing. -/
theorem malformed_payload_handling (O : Oracles) (c : Config)
    (rest : List InEvent) (hh : c.handler = .rIdle) :
    (c.inbox = .text none :: rest →
      step O c .hand = { c with inbox := rest })
  ∧ (∀ j, c.inbox = .text (some j) :: rest → (∀ fs, j ≠ .obj fs) →
      (step O c .hand).handler = .rClosed ∧ (step O c .hand).out = c.out)
  ∧ (∀ fields, c.inbox = .text (some (.obj fields)) :: rest →
      List.lookup "type" fields = none →
      step O c .hand = { c with inbox := rest }) := by
  refine ⟨?_, ?_, ?_⟩
  · intro hin
    show handlerStep O c = _
    unfold handlerStep
    rw [hh]
    dsimp only
    unfold handleIdle
    rw [hin]
    rw [hh]
  · intro j hin hne
    have hstep : step O c .hand = crashClose { c with inbox := rest } := by
      show handlerStep O c = _
      unfold handlerStep
      rw [hh]
      dsimp only
      unfold handleIdle
      rw [hin]
      rcases j with fields | el | sv | nv | bv | -
      · exact absurd rfl (hne fields)
      all_goals rw [hh]
    rw [hstep]
    exact ⟨rfl, crashClose_out _⟩
  · intro fields hin hk
    show handlerStep O c = _
    unfold handlerStep
    rw [hh]
    dsimp only
    unfold handleIdle
    rw [hin]
    dsimp only
    rw [hk]
    rw [hh]

/-- Witness for `malformed_payload_handling`: an undecodable payload is
dropped and the loop continues. -/
theorem malformed_payload_handling_witness :
    step O0 (initConfig [InEvent.text none]) .hand = initConfig [] := by
  exact (malformed_payload_handling O0 (initConfig [InEvent.text none])
    [] rfl).1 rfl

/-! ### Emission shape of a single step -/

lemma setIntr_out (c : Config) (j : Nat) : (setIntr c j).out = c.out := rfl

lemma setPc_out (c : Config) (i : Nat) (p : WorkerPc) :
    (setPc c i p).out = c.out := rfl

lemma finishTask_out (c : Config) (i : Nat) : (finishTask c i).out = c.out := by
  unfold finishTask
  rcases c.llmInterrupt with - | j <;> rfl

/-- Case analysis of `handleInterrupt`: it either emits nothing or emits
exactly one `interrupt_ack`. -/
lemma handleInterrupt_out_cases (c : Config) :
    (handleInterrupt c).out = c.out ∨
    (handleInterrupt c).out = c.out ++ [Msg.interrupt_ack] := by
  obtain ⟨inb, hdl, pr, ts, lt, li, nid, outs⟩ := c
  unfold handleInterrupt findTask
  dsimp only
  rcases li with - | i <;> (try dsimp only)
  · left; trivial
  · rcases hft : ts.find? (fun u => u.tid == i) with - | t <;> simp only [hft]
    · left; trivial
    · cases hti : t.intr <;>
        simp only [hti, Bool.false_eq_true, if_false, if_true]
      · right; trivial
      · left; trivial

/-- Every step appends at most one message, and any `llm` or `llm_final`
it appends is attributed to a stored task whose cancellation flag was
unset before the step. -/
lemma step_out_cases (O : Oracles) (c : Config) (ch : Choice) :
    (step O c ch).out = c.out ∨
    ∃ m, (step O c ch).out = c.out ++ [m] ∧ okEmit c m := by
  cases ch with
  | work idx =>
    simp only [step]
    unfold workStep
    rcases hg : c.tasks.get? idx with - | t <;> simp only [hg]
    · left; trivial
    · have hmem : t ∈ c.tasks := List.get?_mem hg
      rcases hpc : t.pc with ⟨acc, rest⟩ | text | - <;> (try dsimp only)
      · rcases rest with - | ⟨⟨chk, tok⟩, rest2⟩ <;> (try dsimp only)
        · cases hcond : (t.intr || acc.isEmpty) <;>
            simp only [hcond, Bool.false_eq_true, if_false, if_true]
          · right
            refine ⟨.llm_final t.tid (String.join acc), rfl, ?_, ?_⟩
            · intro i s h
              injection h with h1 h2
              have hintr : t.intr = false := by
                cases hti : t.intr
                · rfl
                · rw [hti] at hcond; simp at hcond
              exact ⟨t, hmem, h1, hintr⟩
            · intro i s h
              exact Msg.noConfusion h
          · left; exact finishTask_out c t.tid
        · cases hcond : (t.intr && chk) <;>
            simp only [hcond, Bool.false_eq_true, if_false, if_true]
          · right
            refine ⟨.llm t.tid tok, rfl, ?_, ?_⟩
            · intro i s h
              exact Msg.noConfusion h
            · intro i s h
              injection h with h1 h2
              refine ⟨t, hmem, h1, ?_⟩
              cases hti : t.intr
              · exact Or.inl rfl
              · right
                have hchk : chk = false := by
                  cases hc2 : chk
                  · rfl
                  · rw [hti, hc2] at hcond; simp at hcond
                rw [hpc, ← h2, hchk]
                simp [staleFragments]
          · left; exact finishTask_out c t.tid
      · rcases hs : synthesize_speech (O.piper text) with - | a <;>
          simp only [hs]
        · left; exact finishTask_out c t.tid
        · right
          refine ⟨.tts_audio t.tid a "wav", ?_, ?_, ?_⟩
          · exact finishTask_out _ t.tid
          · intro i s h
            exact Msg.noConfusion h
          · intro i s h
            exact Msg.noConfusion h
      · left; trivial
  | hand =>
    obtain ⟨inb, hdl, pr, ts, lt, li, nid, outs⟩ := c
    simp only [step]
    unfold handlerStep
    dsimp only
    rcases hdl with - | u | tr | tr | - <;> (try dsimp only)
    · -- rIdle
      unfold handleIdle
      dsimp only
      rcases inb with - | ⟨ev, rest⟩ <;> (try dsimp only)
      · left; trivial
      · rcases ev with chunk | payload <;> (try dsimp only)
        · by_cases hc : chunk.isEmpty = true <;>
            simp only [hc, Bool.false_eq_true, if_false, if_true]
          · left; trivial
          · rcases ha : add_audio O.vad ⟨pr.buffer⟩ chunk with ⟨- | u, p⟩ <;>
              simp only [ha] <;> left <;> trivial
        · rcases payload with - | j <;> (try dsimp only)
          · left; trivial
          · rcases j with fields | el | sv | nv | bv | - <;> (try dsimp only)
            · rcases hk : List.lookup "type" fields with - | k <;>
                (try simp only [hk])
              · left; trivial
              · rcases k with f2 | e2 | kind | n2 | b2 | - <;> (try dsimp only)
                · left; trivial
                · left; trivial
                · by_cases h1 : kind = "interrupt"
                  · rw [if_pos h1]
                    rcases handleInterrupt_out_cases
                        ⟨rest, .rIdle, pr, ts, lt, li, nid, outs⟩ with hx | hx
                    · left; rw [hx]
                    · right
                      exact ⟨.interrupt_ack, hx,
                        fun i s h => Msg.noConfusion h,
                        fun i s h => Msg.noConfusion h⟩
                  · rw [if_neg h1]
                    by_cases h2 : kind = "prompt"
                    · rw [if_pos h2]
                      rcases hpv : promptTextValue (List.lookup "text" fields)
                          with e3 | s3 <;> simp only [hpv]
                      · left; exact crashClose_out _
                      · by_cases h4 : pyStrip s3 = ""
                        · rw [if_pos h4]; left; trivial
                        · rw [if_neg h4]
                          right
                          exact ⟨.stt (pyStrip s3) true, rfl,
                            fun i s h => Msg.noConfusion h,
                            fun i s h => Msg.noConfusion h⟩
                    · rw [if_neg h2]
                      by_cases h3 : kind = "ping"
                      · rw [if_pos h3]
                        right
                        exact ⟨.pong (List.lookup "id" fields), rfl,
                          fun i s h => Msg.noConfusion h,
                          fun i s h => Msg.noConfusion h⟩
                      · rw [if_neg h3]; left; trivial
                · left; trivial
                · left; trivial
                · left; trivial
            · left; exact crashClose_out _
            · left; exact crashClose_out _
            · left; exact crashClose_out _
            · left; exact crashClose_out _
            · left; exact crashClose_out _
    · -- rTranscribe
      rcases ht : transcribe_audio (O.whisper u) with - | t <;> simp only [ht]
      · left; trivial
      · right
        exact ⟨.stt t true, rfl,
          fun i s h => Msg.noConfusion h,
          fun i s h => Msg.noConfusion h⟩
    · -- rStartPipe
      cases hb : taskBusy ⟨inb, .rStartPipe tr, pr, ts, lt, li, nid, outs⟩ <;>
        simp only [hb, Bool.false_eq_true, if_false, if_true]
      · right
        exact ⟨.llm_start, rfl,
          fun i s h => Msg.noConfusion h,
          fun i s h => Msg.noConfusion h⟩
      · rcases li with - | j <;> (try dsimp only)
        · left; trivial
        · left; trivial
    · -- rAwaitTask
      cases hb : taskBusy ⟨inb, .rAwaitTask tr, pr, ts, lt, li, nid, outs⟩ <;>
        simp only [hb, Bool.false_eq_true, if_false, if_true]
      · right
        exact ⟨.llm_start, rfl,
          fun i s h => Msg.noConfusion h,
          fun i s h => Msg.noConfusion h⟩
      · left; trivial
    · left; trivial

/-! ### Persistence of the cancellation signal -/

lemma deadL_map {ts : List Task} {n i : Nat} {S : List String}
    (f : Task → Task) (htid : ∀ x, (f x).tid = x.tid)
    (hint : ∀ x, x.tid = i → x.intr = true → staleFragments x.pc ⊆ S →
      (f x).intr = true ∧ staleFragments (f x).pc ⊆ S)
    (h : deadL ts n i S) : deadL (ts.map f) n i S := by
  refine ⟨h.1, ?_⟩
  intro t ht hti
  obtain ⟨x, hx, rfl⟩ := List.mem_map.mp ht
  have hx2 : x.tid = i := by rw [← htid x]; exact hti
  obtain ⟨h1, h2⟩ := h.2 x hx hx2
  exact hint x hx2 h1 h2

lemma deadL_append {ts : List Task} {n i : Nat} {S : List String}
    (h : deadL ts n i S) (b : Bool) (pc : WorkerPc) :
    deadL (ts ++ [⟨n, b, pc⟩]) (n + 1) i S := by
  refine ⟨Nat.lt_succ_of_lt h.1, ?_⟩
  intro t ht hti
  rcases List.mem_append.mp ht with hx | hx
  · exact h.2 t hx hti
  · have h3 : t = ⟨n, b, pc⟩ := by simpa using hx
    rw [h3] at hti
    exact absurd (hti : n = i) (ne_of_gt h.1)

lemma dead_setIntr {c : Config} (j i : Nat) (S : List String)
    (h : intrDead c i S) : intrDead (setIntr c j) i S :=
  deadL_map _ (fun x => by by_cases hx : x.tid = j <;> simp [hx])
    (fun x _ hx hs => by by_cases hxx : x.tid = j <;> simp [hxx, hx, hs]) h

lemma dead_setPc {c : Config} (j : Nat) (p : WorkerPc) (i : Nat)
    (S : List String) (hs : j = i → staleFragments p ⊆ S)
    (h : intrDead c i S) : intrDead (setPc c j p) i S :=
  deadL_map _ (fun x => by by_cases hx : x.tid = j <;> simp [hx])
    (fun x hxi hx hsx => by
      by_cases hxx : x.tid = j
      · have hji : j = i := hxx.symm.trans hxi
        simp only [if_pos hxx]
        exact ⟨hx, hs hji⟩
      · simp only [if_neg hxx]
        exact ⟨hx, hsx⟩) h

lemma dead_finishTask {c : Config} (j i : Nat) (S : List String)
    (h : intrDead c i S) : intrDead (finishTask c j) i S := by
  unfold finishTask
  rcases hli : c.llmInterrupt with - | k <;> (try dsimp only)
  · exact dead_setPc j .done i S
      (fun _ => fun x hx => absurd hx (List.not_mem_nil x)) h
  · exact dead_setPc j .done i S
      (fun _ => fun x hx => absurd hx (List.not_mem_nil x))
      (dead_setIntr k i S h)

lemma dead_createPipeline (O : Oracles) {c : Config} (tr : String) (i : Nat)
    (S : List String) (h : intrDead c i S) :
    intrDead (createPipeline O c tr) i S :=
  deadL_append h false _

lemma dead_crashClose {c : Config} (i : Nat) (S : List String)
    (h : intrDead c i S) : intrDead (crashClose c) i S := by
  unfold crashClose
  cases hb : taskBusy c <;>
    simp only [hb, Bool.false_eq_true, if_false, if_true] <;> (try dsimp only)
  · exact h
  · rcases c.llmInterrupt with - | j <;> (try dsimp only)
    · rcases c.llmTask with - | k <;> (try dsimp only)
      · exact h
      · exact dead_setPc k .done i S
          (fun _ => fun x hx => absurd hx (List.not_mem_nil x)) h
    · rcases c.llmTask with - | k <;> (try dsimp only)
      · exact dead_setIntr j i S h
      · exact dead_setPc k .done i S
          (fun _ => fun x hx => absurd hx (List.not_mem_nil x))
          (dead_setIntr j i S h)

lemma dead_handleInterrupt {c : Config} (i : Nat) (S : List String)
    (h : intrDead c i S) : intrDead (handleInterrupt c) i S := by
  unfold handleInterrupt
  rcases hli : c.llmInterrupt with - | j <;> (try dsimp only)
  · exact h
  · rcases hft : findTask c j with - | t <;> simp only [hft]
    · exact h
    · cases hti : t.intr <;>
        simp only [hti, Bool.false_eq_true, if_false, if_true]
      · exact dead_setIntr j i S h
      · exact h

lemma dead_handleIdle (O : Oracles) {c : Config} (i : Nat) (S : List String)
    (h : intrDead c i S) : intrDead (handleIdle O c) i S := by
  unfold handleIdle
  rcases hin : c.inbox with - | ⟨ev, rest⟩ <;> (try dsimp only)
  · exact h
  · rcases ev with chunk | payload <;> (try dsimp only)
    · by_cases hc : chunk.isEmpty = true <;>
        simp only [hc, Bool.false_eq_true, if_false, if_true]
      · exact h
      · rcases ha : add_audio O.vad c.processor chunk with ⟨- | u, p⟩ <;>
          simp only [ha]
        · exact h
        · exact h
    · rcases payload with - | j <;> (try dsimp only)
      · exact h
      · rcases j with fields | el | sv | nv | bv | - <;> (try dsimp only)
        · rcases hk : List.lookup "type" fields with - | k <;>
            (try simp only [hk])
          · exact h
          · rcases k with f2 | e2 | kind | n2 | b2 | - <;> (try dsimp only)
            · exact h
            · exact h
            · by_cases h1 : kind = "interrupt"
              · rw [if_pos h1]; exact dead_handleInterrupt i S h
              · rw [if_neg h1]
                by_cases h2 : kind = "prompt"
                · rw [if_pos h2]
                  rcases hpv : promptTextValue (List.lookup "text" fields)
                      with e3 | s3 <;> simp only [hpv]
                  · exact dead_crashClose i S h
                  · by_cases h4 : pyStrip s3 = ""
                    · rw [if_pos h4]; exact h
                    · rw [if_neg h4]; exact h
                · rw [if_neg h2]
                  by_cases h3 : kind = "ping"
                  · rw [if_pos h3]; exact h
                  · rw [if_neg h3]; exact h
            · exact h
            · exact h
            · exact h
        · exact dead_crashClose i S h
        · exact dead_crashClose i S h
        · exact dead_crashClose i S h
        · exact dead_crashClose i S h
        · exact dead_crashClose i S h

lemma dead_handlerStep (O : Oracles) {c : Config} (i : Nat) (S : List String)
    (h : intrDead c i S) : intrDead (handlerStep O c) i S := by
  unfold handlerStep
  rcases hh : c.handler with - | u | tr | tr | - <;> (try dsimp only)
  · exact dead_handleIdle O i S h
  · rcases ht : transcribe_audio (O.whisper u) with - | t <;> simp only [ht]
    · exact h
    · exact h
  · cases hb : taskBusy c <;>
      simp only [hb, Bool.false_eq_true, if_false, if_true]
    · exact dead_createPipeline O tr i S h
    · rcases hli : c.llmInterrupt with - | j <;> (try dsimp only)
      · exact h
      · exact dead_setIntr j i S h
  · cases hb : taskBusy c <;>
      simp only [hb, Bool.false_eq_true, if_false, if_true]
    · exact dead_createPipeline O tr i S h
    · exact h
  · exact h

lemma dead_workStep (O : Oracles) {c : Config} (idx i : Nat) (S : List String)
    (h : intrDead c i S) : intrDead (workStep O c idx) i S := by
  unfold workStep
  rcases hg : c.tasks.get? idx with - | t <;> simp only [hg]
  · exact h
  · have hmem : t ∈ c.tasks := List.get?_mem hg
    rcases hpc : t.pc with ⟨acc, rest⟩ | text | - <;> (try dsimp only)
    · rcases rest with - | ⟨⟨chk, tok⟩, rest2⟩ <;> (try dsimp only)
      · cases hcond : (t.intr || acc.isEmpty) <;>
          simp only [hcond, Bool.false_eq_true, if_false, if_true]
        · exact dead_setPc t.tid _ i S
            (fun _ => fun x hx => absurd hx (List.not_mem_nil x)) h
        · exact dead_finishTask t.tid i S h
      · cases hcond : (t.intr && chk) <;>
          simp only [hcond, Bool.false_eq_true, if_false, if_true]
        · refine dead_setPc t.tid _ i S ?_ h
          intro hti
          obtain ⟨hint2, hsub⟩ := h.2 t hmem hti
          have hchk : chk = false := by
            cases hc2 : chk
            · rfl
            · rw [hint2, hc2] at hcond; simp at hcond
          rw [hpc, hchk] at hsub
          have hform : staleFragments (WorkerPc.gen acc ((false, tok) :: rest2))
              = tok :: staleFragments (WorkerPc.gen (acc ++ [tok]) rest2) := by
            simp [staleFragments]
          rw [hform] at hsub
          exact fun x hx => hsub (List.mem_cons_of_mem _ hx)
        · exact dead_finishTask t.tid i S h
    · rcases hs : synthesize_speech (O.piper text) with - | a <;> simp only [hs]
      · exact dead_finishTask t.tid i S h
      · exact dead_finishTask t.tid i S h
    · exact h

lemma intrDead_step (O : Oracles) (c : Config) (ch : Choice) (i : Nat)
    (S : List String) (h : intrDead c i S) : intrDead (step O c ch) i S := by
  cases ch with
  | hand => exact dead_handlerStep O i S h
  | work idx => exact dead_workStep O idx i S h

lemma run_out_extend (O : Oracles) (sched : List Choice) :
    ∀ c : Config, ∃ δ, (run O c sched).out = c.out ++ δ := by
  induction sched with
  | nil => intro c; exact ⟨[], by simp [run]⟩
  | cons ch tail ih =>
    intro c
    obtain ⟨d2, h2⟩ := ih (step O c ch)
    rcases step_out_cases O c ch with h1 | ⟨m, h1, -⟩
    · refine ⟨d2, ?_⟩
      show (run O (step O c ch) tail).out = _
      rw [h2, h1]
    · refine ⟨m :: d2, ?_⟩
      show (run O (step O c ch) tail).out = _
      rw [h2, h1, List.append_assoc]
      rfl

/-- Once the cancellation signal of task identifier `i` is set, no later
step of any schedule appends an `llm_final` message attributed to `i`, and
any `llm` message attributed to `i` it appends carries a text from the
residue `S` of pending unchecked fragments. -/
lemma run_no_stale_llm (O : Oracles) (sched : List Choice) :
    ∀ (c : Config) (i : Nat) (S : List String), intrDead c i S →
      ∀ m ∈ (run O c sched).out.drop c.out.length,
        ∀ s, m ≠ .llm_final i s ∧ (m = .llm i s → s ∈ S) := by
  induction sched with
  | nil =>
    intro c i S hd m hm s
    have h0 : run O c [] = c := rfl
    rw [h0, List.drop_length] at hm
    cases hm
  | cons ch tail ih =>
    intro c i S hd m hm s
    have hd2 : intrDead (step O c ch) i S := intrDead_step O c ch i S hd
    rcases step_out_cases O c ch with h1 | ⟨m0, h1, hok⟩
    · have hm2 : m ∈ (run O (step O c ch) tail).out.drop
          (step O c ch).out.length := by
        rw [h1]
        exact hm
      exact ih (step O c ch) i S hd2 m hm2 s
    · obtain ⟨d, hd3⟩ := run_out_extend O tail (step O c ch)
      have hout : (run O c (ch :: tail)).out = c.out ++ ([m0] ++ d) := by
        show (run O (step O c ch) tail).out = _
        rw [hd3, h1, List.append_assoc]
      rw [hout, List.drop_left] at hm
      rcases List.mem_cons.mp hm with rfl | hm2
      · constructor
        · intro heq
          obtain ⟨t, ht, htid, hintr⟩ := hok.1 i s heq
          have := (hd.2 t ht htid).1
          rw [this] at hintr
          exact Bool.noConfusion hintr
        · intro heq
          obtain ⟨t, ht, htid, hcase⟩ := hok.2 i s heq
          obtain ⟨hti, hsub⟩ := hd.2 t ht htid
          rcases hcase with hf | hmem2
          · rw [hti] at hf
            exact Bool.noConfusion hf
          · exact hsub hmem2
      · have hd4 : d = (run O (step O c ch) tail).out.drop
            (step O c ch).out.length := by
          rw [hd3, h1]
          exact (List.drop_left _ _).symm
        refine ih (step O c ch) i S hd2 m ?_ s
        rw [← hd4]
        exact hm2

/-- Claim C2 (amended): when an interrupt control message arrives while a
task is active with its signal unset, the handler sets the cancellation
signal and emits `interrupt_ack` in the same step, without awaiting the
task (the task program counter is unchanged); from that point on no
`llm_final` message attributed to the task is ever emitted, and the only
`llm` messages attributed to it that may still be emitted carry its pending
unchecked fragments (the `"Error: ..."` yield of a failed generation, which
sits outside the interrupt-checked loop); a `tts_audio` message from an
already-started synthesis may likewise still follow the `interrupt_ack`
(see the counterexample trace). -/
theorem interrupt_sets_signal_acks_without_await (O : Oracles) (c : Config)
    (rest : List InEvent) (i : Nat) (t : Task)
    (hh : c.handler = .rIdle) (hin : c.inbox = interruptEvent :: rest)
    (hli : c.llmInterrupt = some i) (hft : findTask c i = some t)
    (hintr : t.intr = false) (hfresh : ∀ u ∈ c.tasks, u.tid < c.nextId)
    (hnodup : (c.tasks.map Task.tid).Nodup) :
    (step O c .hand).out = c.out ++ [.interrupt_ack]
  ∧ (step O c .hand).tasks
      = c.tasks.map (fun u => if u.tid = i then { u with intr := true } else u)
  ∧ ∀ sched m,
      m ∈ (run O (step O c .hand) sched).out.drop (c.out.length + 1) →
      ∀ s, m ≠ .llm_final i s ∧ (m = .llm i s → s ∈ staleFragments t.pc) := by
  have hstep : step O c .hand
      = { setIntr { c with inbox := rest } i with
          out := c.out ++ [Msg.interrupt_ack]
          processor := ⟨[]⟩ } := by
    show handlerStep O c = _
    unfold handlerStep
    rw [hh]
    dsimp only
    unfold handleIdle
    rw [hin]
    unfold interruptEvent
    dsimp only
    rw [show List.lookup "type" [("type", Json.str "interrupt")]
          = some (Json.str "interrupt") from rfl]
    dsimp only
    rw [if_pos rfl]
    unfold handleInterrupt findTask
    dsimp only
    rw [hli]
    dsimp only
    have hft3 : c.tasks.find? (fun u => u.tid == i) = some t := hft
    rw [hft3]
    dsimp only
    rw [hintr]
    rw [if_neg (fun hx => Bool.noConfusion hx)]
    first
      | rfl
      | rw [hh]
  refine ⟨?_, ?_, ?_⟩
  · rw [hstep]
  · rw [hstep]
    rfl
  · intro sched m hm s
    have hft3 : c.tasks.find? (fun u => u.tid == i) = some t := hft
    have hi2 : t.tid = i := by
      have := List.find?_some hft3
      simpa using this
    have hmem : t ∈ c.tasks := List.mem_of_find?_eq_some hft3
    have hlt : i < c.nextId := by
      rw [← hi2]
      exact hfresh t hmem
    have hdead : intrDead (step O c .hand) i (staleFragments t.pc) := by
      rw [hstep]
      refine ⟨hlt, ?_⟩
      intro u hu hut
      have hu2 : u ∈ c.tasks.map
          (fun x => if x.tid = i then { x with intr := true } else x) := hu
      obtain ⟨x, hx, rfl⟩ := List.mem_map.mp hu2
      by_cases hxx : x.tid = i
      · have hxt : x = t := List.inj_on_of_nodup_map hnodup hx hmem
          (by rw [hxx, hi2])
        refine ⟨by simp [hxx], ?_⟩
        have h5 : staleFragments ((fun x =>
            if x.tid = i then { x with intr := true } else x) x).pc
            = staleFragments x.pc := by
          simp [hxx]
        rw [h5, hxt]
        exact List.Subset.refl _
      · simp [hxx] at hut
    have hlen : (step O c .hand).out.length = c.out.length + 1 := by
      rw [hstep]
      show (c.out ++ [Msg.interrupt_ack]).length = c.out.length + 1
      simp
    refine run_no_stale_llm O sched (step O c .hand) i (staleFragments t.pc)
      hdead m ?_ s
    rw [hlen]
    exact hm

/-- Witness for `interrupt_sets_signal_acks_without_await` at the concrete
session `cE`, where the generation collaborator has raised and the worker
holds the pending unchecked `"Error: boom"` fragment when the interrupt
arrives: the ack is emitted, the task keeps its program counter (it was not
awaited), and the subsequent worker steps still send the stale
`llm "Error: boom"` message after the `interrupt_ack`, within the bound the
theorem states. -/
theorem interrupt_sets_signal_acks_without_await_witness :
    (step OE cE .hand).out
      = [Msg.ready, .stt "hi" true, .llm_start, .interrupt_ack]
  ∧ (step OE cE .hand).tasks
      = [⟨0, true, .gen [] [(false, "Error: boom")]⟩]
  ∧ (run OE cE [.hand, .work 0, .work 0]).out
      = [Msg.ready, .stt "hi" true, .llm_start, .interrupt_ack,
         .llm 0 "Error: boom"] := by
  have h := interrupt_sets_signal_acks_without_await OE cE [] 0
    ⟨0, false, .gen [] [(false, "Error: boom")]⟩ rfl rfl rfl rfl rfl
    (by decide) (by decide)
  exact ⟨h.1, h.2.1, rfl⟩

/-! ### The uninterrupted pipeline run -/

lemma run_append (O : Oracles) (c : Config) (l1 l2 : List Choice) :
    run O c (l1 ++ l2) = run O (run O c l1) l2 := by
  simp [run, List.foldl_append]

lemma run_one (O : Oracles) (c : Config) (ch : Choice) :
    run O c [ch] = step O c ch := rfl

lemma run_two (O : Oracles) (c : Config) (c1 c2 : Choice) :
    run O c [c1, c2] = step O (step O c c1) c2 := rfl

lemma step_hand (O : Oracles) (c : Config) :
    step O c .hand = handlerStep O c := rfl

lemma step_work (O : Oracles) (c : Config) (i : Nat) :
    step O c (.work i) = workStep O c i := rfl

/-- Iterating the worker while the signal stays unset consumes the pending
fragments one by one, emitting one `llm` message per fragment (with the
flag unset the interrupt check never fires, whether or not a fragment
carries it). -/
lemma worker_consumes (O : Oracles) (rest : List (Bool × String)) :
    ∀ (acc : List String) (inb : List InEvent) (hp : HandlerPc)
      (pr : AudioProcessor) (ms : List Msg),
    run O { inbox := inb, handler := hp, processor := pr,
            tasks := [⟨0, false, .gen acc rest⟩], llmTask := some 0,
            llmInterrupt := some 0, nextId := 1, out := ms }
      (List.replicate rest.length (.work 0))
    = { inbox := inb, handler := hp, processor := pr,
        tasks := [⟨0, false, .gen (acc ++ rest.map Prod.snd) []⟩],
        llmTask := some 0, llmInterrupt := some 0, nextId := 1,
        out := ms ++ rest.map (fun f => Msg.llm 0 f.2) } := by
  induction rest with
  | nil =>
    intro acc inb hp pr ms
    simp [run]
  | cons f rest2 ih =>
    intro acc inb hp pr ms
    obtain ⟨chk, tok⟩ := f
    rw [List.length_cons, List.replicate_succ]
    show run O (step O
        { inbox := inb, handler := hp, processor := pr,
          tasks := [⟨0, false, .gen acc ((chk, tok) :: rest2)⟩],
          llmTask := some 0, llmInterrupt := some 0, nextId := 1,
          out := ms } (.work 0))
      (List.replicate rest2.length (.work 0)) = _
    have hstep : step O
        { inbox := inb, handler := hp, processor := pr,
          tasks := [⟨0, false, .gen acc ((chk, tok) :: rest2)⟩],
          llmTask := some 0, llmInterrupt := some 0, nextId := 1,
          out := ms } (.work 0)
      = { inbox := inb, handler := hp, processor := pr,
          tasks := [⟨0, false, .gen (acc ++ [tok]) rest2⟩],
          llmTask := some 0, llmInterrupt := some 0, nextId := 1,
          out := ms ++ [Msg.llm 0 tok] } := rfl
    rw [hstep, ih]
    simp [List.append_assoc]

/-- The worker step from the synthesis suspension point: emit the audio
when synthesis yields some, then run the `finally` block. -/
lemma workStep_synth (O : Oracles) (inb : List InEvent) (hp : HandlerPc)
    (pr : AudioProcessor) (text : String) (ms : List Msg) :
    workStep O
      { inbox := inb, handler := hp, processor := pr,
        tasks := [⟨0, false, .synth text⟩], llmTask := some 0,
        llmInterrupt := some 0, nextId := 1, out := ms } 0
    = { inbox := inb, handler := hp, processor := pr,
        tasks := [⟨0, true, .done⟩], llmTask := some 0, llmInterrupt := none,
        nextId := 1,
        out := ms ++ (match synthesize_speech (O.piper text) with
                      | some a => [Msg.tts_audio 0 a "wav"]
                      | none => []) } := by
  unfold workStep
  dsimp only [List.get?]
  rcases hsyn : synthesize_speech (O.piper text) with - | a <;>
    simp [finishTask, setIntr, setPc]

/-- Claim C4 (amended): a prompt turn whose generation collaborator yields
at least one fragment and is never interrupted emits, after `llm_start` and
one `llm` message per fragment, exactly one `llm_final` message carrying
the concatenation of all fragments, followed by at most one `tts_audio`
message; when synthesis yields no audio the `tts_audio` message is skipped
and the task still terminates normally with no `error` message. -/
theorem uninterrupted_pipeline_output (O : Oracles) (p : String)
    (fs : List String) (hp : pyStrip p ≠ "")
    (hf : O.llm (pyStrip p) = .ok fs) (hne : fs ≠ []) :
    run O (initConfig [promptEvent p])
      ([.hand, .hand] ++ List.replicate fs.length (.work 0)
        ++ [.work 0, .work 0])
    = { inbox := [], handler := .rIdle, processor := ⟨[]⟩,
        tasks := [⟨0, true, .done⟩], llmTask := some 0, llmInterrupt := none,
        nextId := 1,
        out := [.ready, .stt (pyStrip p) true, .llm_start]
               ++ fs.map (Msg.llm 0) ++ [.llm_final 0 (String.join fs)]
               ++ (match synthesize_speech (O.piper (String.join fs)) with
                   | some a => [Msg.tts_audio 0 a "wav"]
                   | none => []) } := by
  have hstep1 : step O (initConfig [promptEvent p]) .hand
      = { inbox := [], handler := .rStartPipe (pyStrip p), processor := ⟨[]⟩,
          tasks := [], llmTask := none, llmInterrupt := none, nextId := 0,
          out := [.ready, .stt (pyStrip p) true] } :=
    (handleIdle_prompt O (initConfig [promptEvent p])
      [("type", Json.str "prompt"), ("text", Json.str p)] [] p
      rfl rfl rfl (promptTextValue_str p)).1 hp
  have hstep2 : step O
      { inbox := [], handler := .rStartPipe (pyStrip p), processor := ⟨[]⟩,
        tasks := [], llmTask := none, llmInterrupt := none, nextId := 0,
        out := [.ready, .stt (pyStrip p) true] } .hand
      = { inbox := [], handler := .rIdle, processor := ⟨[]⟩,
          tasks := [⟨0, false, .gen [] (fs.map (fun s => (true, s)))⟩],
          llmTask := some 0, llmInterrupt := some 0, nextId := 1,
          out := [.ready, .stt (pyStrip p) true, .llm_start] } := by
    rw [step_hand]
    unfold handlerStep
    dsimp only
    unfold createPipeline
    dsimp only
    rw [hf]
    rfl
  have h12 : run O (initConfig [promptEvent p]) [.hand, .hand]
      = { inbox := [], handler := .rIdle, processor := ⟨[]⟩,
          tasks := [⟨0, false, .gen [] (fs.map (fun s => (true, s)))⟩],
          llmTask := some 0, llmInterrupt := some 0, nextId := 1,
          out := [.ready, .stt (pyStrip p) true, .llm_start] } := by
    rw [run_two, hstep1, hstep2]
  have hsnd : (fs.map (fun s => (true, s))).map Prod.snd = fs := by
    simp
  have hmsg : (fs.map (fun s => (true, s))).map (fun f => Msg.llm 0 f.2)
      = fs.map (Msg.llm 0) := by
    simp
  have hlen : fs.length = (fs.map (fun s => (true, s))).length :=
    (List.length_map fs (fun s => (true, s))).symm
  rw [run_append, run_append, h12, hlen, worker_consumes, hsnd, hmsg]
  rcases fs with - | ⟨f0, fs2⟩
  · exact absurd rfl hne
  · have hstepa : step O
        { inbox := [], handler := HandlerPc.rIdle, processor := ⟨[]⟩,
          tasks := [⟨0, false, .gen ([] ++ (f0 :: fs2)) []⟩],
          llmTask := some 0, llmInterrupt := some 0, nextId := 1,
          out := [.ready, .stt (pyStrip p) true, .llm_start]
                 ++ (f0 :: fs2).map (Msg.llm 0) } (.work 0)
      = { inbox := [], handler := HandlerPc.rIdle, processor := ⟨[]⟩,
          tasks := [⟨0, false, .synth (String.join (f0 :: fs2))⟩],
          llmTask := some 0, llmInterrupt := some 0, nextId := 1,
          out := ([.ready, .stt (pyStrip p) true, .llm_start]
                 ++ (f0 :: fs2).map (Msg.llm 0))
                 ++ [Msg.llm_final 0 (String.join (f0 :: fs2))] } := rfl
    rw [run_two, hstepa, step_work, workStep_synth]

/-- Witness for `uninterrupted_pipeline_output`: one fragment, synthesis
raising (so the `tts_audio` message is skipped without an error). -/
theorem uninterrupted_pipeline_output_witness :
    run O5 (initConfig [promptEvent "hi"])
      ([.hand, .hand] ++ List.replicate 1 (.work 0) ++ [.work 0, .work 0])
    = { inbox := [], handler := .rIdle, processor := ⟨[]⟩,
        tasks := [⟨0, true, .done⟩], llmTask := some 0, llmInterrupt := none,
        nextId := 1,
        out := [.ready, .stt "hi" true, .llm_start, .llm 0 "ok",
                .llm_final 0 "ok"] } := by
  exact uninterrupted_pipeline_output O5 "hi" ["ok"] (by decide) rfl
    (by decide)

end Clashroom
